import Mathlib

/-!
Verification of the card normalization and rendering pipeline of the
piggyanki repository (`common.py`).  The Python code is shallowly embedded:

* A Python character of a word field is modelled by `UChar`: its codepoint
  together with the major class of its Unicode general category (the value
  `unicodedata.category(c)[0]` that the code inspects).  Word fields are
  lists of such characters (`UStr`); character comparison (`in`, `==`)
  compares codepoints only, as Python does.
* All other text fields (translation, pronunciation, flags, tags, source)
  never have their Unicode category inspected, so they are plain `String`s.
* `BeautifulSoup` markup stripping is modelled for markup-free input, the
  only case the claims quantify over: for a non-empty plain-text input
  `soup.string` is the text itself; for an empty input `soup.string` is
  `None`, so `str(soup.string)` is the four-letter text `"None"`.
* `uuid.uuid1()` is modelled by an explicit `fresh` argument supplied by
  the environment: each call of `calc_uuid_stem` receives the random
  identifier that call of `uuid1` would have produced.
* `fh.write` in `Card.save` is modelled by returning the list of written
  lines.
* Python `str.strip()` is modelled on the ASCII whitespace characters
  (plus, for `UChar`, anything of major category Z); the claims under
  consideration are insensitive to the exact whitespace set.
-/

/-- Major class of a Unicode general category: Letter, Mark, Number,
Punctuation, Separator, Symbol, Other (`unicodedata.category(c)[0]`). -/
inductive UCat where
  | L | M | N | P | Z | S | C
deriving DecidableEq

/-- A Python character as observed by `common.py`: its codepoint and the
major class of its Unicode general category. -/
structure UChar where
  c : Char
  cat : UCat
deriving DecidableEq

/-- A Python string of a word field: a list of `UChar`s. -/
abbrev UStr := List UChar

/-- Letter character (category `L*`). -/
def chL (c : Char) : UChar := ⟨c, UCat.L⟩

/-- Mark character (category `M*`), e.g. a Hebrew vowel point. -/
def chM (c : Char) : UChar := ⟨c, UCat.M⟩

/-- Number character (category `N*`), e.g. an ASCII digit. -/
def chN (c : Char) : UChar := ⟨c, UCat.N⟩

/-- ASCII whitespace stripped by Python's `str.strip()`. -/
def pyIsSpaceChar (c : Char) : Bool :=
  c = ' ' || c = '\t' || c = '\n' || c = '\x0d' || c = '\x0b' || c = '\x0c'

/-- Whitespace test for word characters: ASCII whitespace or a Unicode
separator (category `Z*`), per Python's `str.isspace`. -/
def pyIsSpaceU (u : UChar) : Bool :=
  pyIsSpaceChar u.c || u.cat = UCat.Z

/-- Python `s.strip()` over a list of characters: drop leading and
trailing whitespace as decided by `ws`. -/
def pyStrip {α : Type} (ws : α → Bool) (l : List α) : List α :=
  ((l.dropWhile ws).reverse.dropWhile ws).reverse

/-- Python membership test `ch in s` on a string. -/
def hasChar (s : String) (ch : Char) : Bool :=
  s.toList.contains ch

/-- utils.cleanup on a plain string field: replace tabs by spaces, then
strip leading and trailing whitespace.  The Python argument may be `None`;
`cleanup(None) = ''` coincides with `cleanup('')`, so an absent field is
modelled by the empty string. -/
def cleanup (s : String) : String :=
  String.mk (pyStrip pyIsSpaceChar (s.toList.map fun ch => if ch = '\t' then ' ' else ch))

/-- utils.cleanup on a word field (`UStr`). -/
def cleanupU (s : UStr) : UStr :=
  pyStrip pyIsSpaceU (s.map fun u => if u.c = '\t' then ⟨' ', UCat.Z⟩ else u)

/-- utils.remove_html, modelled for markup-free input: for non-empty plain
text `BeautifulSoup(s).string` is `s` itself and the result is
`cleanup(s)`; for empty input `soup.string` is `None` and
`cleanup(str(None))` is the literal text `"None"`. -/
def remove_html (s : UStr) : UStr :=
  if s = [] then [chL 'N', chL 'o', chL 'n', chL 'e'] else cleanupU s

/-- The letters-and-marks form of a word: `remove_html` output restricted
to characters of major category `L` or `M` (first step of
`utils.remove_nekudot`). -/
def lettersAndMarks (w : UStr) : UStr :=
  (remove_html w).filter fun u => u.cat = UCat.L || u.cat = UCat.M

/-- The letters-only form of a word: the letters-and-marks form restricted
to category `L` (the `naked_word` of `utils.remove_nekudot`). -/
def lettersOnly (w : UStr) : UStr :=
  lettersAndMarks w |>.filter fun u => u.cat = UCat.L

/-- utils.remove_nekudot: strip markup, keep only letters and marks; then,
unless flags are absent or contain the `.` sentinel, reduce to letters
only — except that for a 2nd-person past-tense verb (flags contain `2`,
`V` and `S`) a trailing mark is retained. -/
def remove_nekudot (word : UStr) (flags : Option String) : UStr :=
  let word2 := lettersAndMarks word
  match flags with
  | none => word2
  | some fl =>
    if hasChar fl '.' then
      -- flags explicitly require leaving nekudot in place: do nothing
      word2
    else
      let naked_word := word2.filter fun u => u.cat = UCat.L
      if hasChar fl '2' && hasChar fl 'V' && hasChar fl 'S' then
        match word2.getLast? with
        | some last_char =>
          if last_char.cat = UCat.M then naked_word ++ [last_char] else naked_word
        | none => word2
      else
        naked_word

/-- utils.annotate_flags: build the list of category phrases exactly as the
sequential `annotations.append` calls do, then join with spaces. -/
def annotate_flags (flags : String) : String :=
  let anns : List String := []
  -- gender
  let anns := anns ++
    (if hasChar flags 'm' && hasChar flags 'f' then []
     else if hasChar flags 'm' then ["masculine"]
     else if hasChar flags 'f' then ["feminine"]
     else [])
  -- person
  let anns := anns ++
    (if hasChar flags '1' && hasChar flags '2' && hasChar flags '3' then []
     else if hasChar flags '1' && hasChar flags '2' then ["1st/2nd person"]
     else if hasChar flags '1' && hasChar flags '3' then ["1st/3rd person"]
     else if hasChar flags '2' && hasChar flags '3' then ["2nd/3rd person"]
     else if hasChar flags '1' then ["1st person"]
     else if hasChar flags '2' then ["2nd person"]
     else if hasChar flags '3' then ["3rd person"]
     else [])
  -- number
  let anns := anns ++
    (if hasChar flags 's' && hasChar flags 'p' then []
     else if hasChar flags 's' then ["single"]
     else if hasChar flags 'p' then ["plural"]
     else [])
  -- tense
  let anns := anns ++
    (if hasChar flags 'I' then ["infinitive"]
     else if hasChar flags 'P' then ["present"]
     else if hasChar flags 'S' then ["past"]
     else if hasChar flags 'F' then ["future"]
     else [])
  -- absolute vs construct
  let anns := anns ++
    (if hasChar flags 'a' && hasChar flags 'c' then []
     else if hasChar flags 'a' then ["absolute"]
     else if hasChar flags 'c' then ["construct"]
     else [])
  -- put all together
  if anns.length > 0 then " ".intercalate anns else ""

/-- Conversion of a word back to a plain string (codepoints only), used
when a word is spliced into an HTML fragment or into the hash input. -/
def ustrToString (s : UStr) : String :=
  String.mk (s.map fun u => u.c)

/-- utils.dress_word: normalized word wrapped in a large-font span, blue
for `m`, red for `f` (checked in that order). -/
def dress_word (word : UStr) (flags : String) : String :=
  let word := remove_nekudot word (some flags)
  if word.length = 0 then ""
  else
    let style := "font-size:24pt;" ++
      (if hasChar flags 'm' then "color:blue;"
       else if hasChar flags 'f' then "color:red;"
       else "")
    "<span style=\"" ++ style ++ "\">" ++ ustrToString word ++ "</span>"

/-- utils.dress_translation: cleaned translation in a medium-font span,
with a small-font parenthesized grammar note appended when
`annotate_flags` is non-empty. -/
def dress_translation (translation : String) (flags : String) : String :=
  let translation := cleanup translation
  if translation.length = 0 then translation
  else
    let text := "<span style=\"font-size:18pt;\">" ++ translation ++ "</span>"
    let ann := annotate_flags flags
    if ann.length > 0 then
      text ++ "<span style=\"font-size:12pt;\"><br />(" ++ ann ++ ")</span>"
    else text

/-- Python `s.split(sep)` on a list of characters. -/
def splitOnChar (sep : Char) : List Char → List (List Char)
  | [] => [[]]
  | x :: xs =>
    match splitOnChar sep xs with
    | [] => [[]]
    | h :: t => if x = sep then [] :: h :: t else (x :: h) :: t

/-- Model of `re.search(r'^([^*]*)\x2a([^*]+)\x2a([^*]*)$', s)`: the regex
matches exactly the strings made of two `*` delimiters around a non-empty
star-free core, with star-free prefix and suffix; the three groups are the
three star-free segments. -/
def matchStress (l : List Char) : Option (List Char × List Char × List Char) :=
  match splitOnChar '*' l with
  | [a, b, c] => if b = [] then none else some (a, b, c)
  | _ => none

/-- utils.dress_pronunciation: cleaned pronunciation in a medium-font
span; a stressed-syllable core delimited by a single pair of `*` is nested
in a bold red span. -/
def dress_pronunciation (pronunciation : String) (flags : String) : String :=
  let pronunciation := cleanup pronunciation
  if pronunciation.length = 0 then pronunciation
  else
    match matchStress pronunciation.toList with
    | some (a, b, c) =>
      "<span style=\"font-size:18pt\">" ++ String.mk a ++
        "<span style=\"color:red;font-weight:bold;\">" ++ String.mk b ++
        "</span>" ++ String.mk c ++ "</span>"
    | none =>
      "<span style=\"font-size:18pt\">" ++ pronunciation ++ "</span>"

/-- A Card: one learnable unit.  Field values are those stored by
`Card.__init__` (see `mkCard`); `uuidPre` is the constructor argument
`uuid_prefix` (renamed). -/
structure Card where
  word : UStr
  translation : String
  pronunciation : String
  flags : String
  tags : String
  source : String
  uuidPre : String
deriving DecidableEq

/-- Card.__init__: every text field is passed through `utils.cleanup`
(an absent/`None` field is the empty string). -/
def mkCard (word : UStr) (translation pronunciation flags tags source : String)
    (uuidPre : String) : Card :=
  ⟨cleanupU word, cleanup translation, cleanup pronunciation,
   cleanup flags, cleanup tags, cleanup source, uuidPre⟩

/-- Card.has_all_flags: clean the predicate; an empty cleaned predicate is
never satisfied; otherwise every one of its characters must occur in the
card's flags. -/
def has_all_flags (c : Card) (flags : String) : Bool :=
  let flags := cleanup flags
  if flags.length < 1 then false
  else flags.toList.all fun ch => hasChar c.flags ch

/-- Card.has_flags: an empty predicate list is never satisfied; otherwise
some predicate of the list must be fully satisfied. -/
def has_flags (c : Card) (flags : List String) : Bool :=
  if flags.length < 1 then false
  else flags.any fun f => has_all_flags c f

/-- Card.should_be_saved: the four-way inclusion/exclusion decision,
inclusion having priority when both lists are given. -/
def should_be_saved (c : Card) (include_flags exclude_flags : List String) : Bool :=
  let include_given := include_flags.length > 0
  let exclude_given := exclude_flags.length > 0
  -- No restrictions
  if !include_given && !exclude_given then true
  -- If only inclusion is specified, only save this card if it has any included flags.
  else if include_given && !exclude_given then has_flags c include_flags
  -- If only exclusion is specified, save this card unless it has any excluded flags.
  else if !include_given && exclude_given then !has_flags c exclude_flags
  -- Both inclusion and exclusion is specified. Inclusion has priority.
  else if has_flags c include_flags then true
  else !has_flags c exclude_flags

/-- UTF-8 encoding of one codepoint (`codecs.encode(-, 'utf-8')`). -/
def utf8Encode (ch : Char) : List Nat :=
  let n := ch.toNat
  if n < 128 then [n]
  else if n < 2048 then [192 ||| (n >>> 6), 128 ||| (n &&& 63)]
  else if n < 65536 then
    [224 ||| (n >>> 12), 128 ||| ((n >>> 6) &&& 63), 128 ||| (n &&& 63)]
  else
    [240 ||| (n >>> 18), 128 ||| ((n >>> 12) &&& 63),
     128 ||| ((n >>> 6) &&& 63), 128 ||| (n &&& 63)]

/-- UTF-8 bytes of a string. -/
def utf8Bytes (s : String) : List Nat :=
  (s.toList.map utf8Encode).flatten

/-- Truncation to a 32-bit word. -/
def w32 (n : Nat) : Nat := n % 4294967296

/-- Right rotation of a 32-bit word. -/
def rotr32 (n x : Nat) : Nat := w32 ((x >>> n) ||| (x <<< (32 - n)))

/-- SHA-256 choice function. -/
def ch32 (x y z : Nat) : Nat := (x &&& y) ^^^ ((x ^^^ 4294967295) &&& z)

/-- SHA-256 majority function. -/
def maj32 (x y z : Nat) : Nat := (x &&& y) ^^^ (x &&& z) ^^^ (y &&& z)

/-- SHA-256 big sigma 0. -/
def bigS0 (x : Nat) : Nat := rotr32 2 x ^^^ rotr32 13 x ^^^ rotr32 22 x

/-- SHA-256 big sigma 1. -/
def bigS1 (x : Nat) : Nat := rotr32 6 x ^^^ rotr32 11 x ^^^ rotr32 25 x

/-- SHA-256 small sigma 0. -/
def smallS0 (x : Nat) : Nat := rotr32 7 x ^^^ rotr32 18 x ^^^ (x >>> 3)

/-- SHA-256 small sigma 1. -/
def smallS1 (x : Nat) : Nat := rotr32 17 x ^^^ rotr32 19 x ^^^ (x >>> 10)

/-- SHA-256 round constants. -/
def sha256K : List Nat :=
  [1116352408, 1899447441, 3049323471, 3921009573, 961987163, 1508970993,
   2453635748, 2870763221, 3624381080, 310598401, 607225278, 1426881987,
   1925078388, 2162078206, 2614888103, 3248222580, 3835390401, 4022224774,
   264347078, 604807628, 770255983, 1249150122, 1555081692, 1996064986,
   2554220882, 2821834349, 2952996808, 3210313671, 3336571891, 3584528711,
   113926993, 338241895, 666307205, 773529912, 1294757372, 1396182291,
   1695183700, 1986661051, 2177026350, 2456956037, 2730485921, 2820302411,
   3259730800, 3345764771, 3516065817, 3600352804, 4094571909, 275423344,
   430227734, 506948616, 659060556, 883997877, 958139571, 1322822218,
   1537002063, 1747873779, 1955562222, 2024104815, 2227730452, 2361852424,
   2428436474, 2756734187, 3204031479, 3329325298]

/-- SHA-256 initial hash state. -/
def sha256H0 : List Nat :=
  [1779033703, 3144134277, 1013904242, 2773480762,
   1359893119, 2600822924, 528734635, 1541459225]

/-- SHA-256 padding: append `0x80`, zeros, and the 8-byte big-endian bit
length, reaching a multiple of 64 bytes. -/
def sha256Pad (msg : List Nat) : List Nat :=
  let bitLen := msg.length * 8
  let zeros := (119 - (msg.length % 64)) % 64
  msg ++ [128] ++ List.replicate zeros 0 ++
    [(bitLen >>> 56) &&& 255, (bitLen >>> 48) &&& 255, (bitLen >>> 40) &&& 255,
     (bitLen >>> 32) &&& 255, (bitLen >>> 24) &&& 255, (bitLen >>> 16) &&& 255,
     (bitLen >>> 8) &&& 255, bitLen &&& 255]

/-- Big-endian assembly of bytes into 32-bit words. -/
def bytesToWords : List Nat → List Nat
  | b0 :: b1 :: b2 :: b3 :: rest =>
    ((b0 <<< 24) ||| (b1 <<< 16) ||| (b2 <<< 8) ||| b3) :: bytesToWords rest
  | _ => []

/-- Split a byte list into 64-byte blocks. -/
def chunks64 (l : List Nat) : List (List Nat) :=
  if h : l = [] then []
  else l.take 64 :: chunks64 (l.drop 64)
termination_by l.length
decreasing_by
  simp [List.length_drop]
  exact List.length_pos.mpr h

/-- SHA-256 message schedule: extend 16 words to 64. -/
def sha256Schedule (ws : List Nat) : List Nat :=
  (List.range 64).foldl
    (fun acc i =>
      if i < 16 then acc ++ [ws.getD i 0]
      else acc ++ [w32 (smallS1 (acc.getD (i - 2) 0) + acc.getD (i - 7) 0 +
                        smallS0 (acc.getD (i - 15) 0) + acc.getD (i - 16) 0)])
    []

/-- SHA-256 compression of one 64-byte block into the hash state. -/
def sha256Compress (h : List Nat) (block : List Nat) : List Nat :=
  let ws := sha256Schedule (bytesToWords block)
  let final := (List.range 64).foldl
    (fun st i =>
      match st with
      | [a, b, c, d, e, f, g, hh] =>
        let t1 := w32 (hh + bigS1 e + ch32 e f g + sha256K.getD i 0 + ws.getD i 0)
        let t2 := w32 (bigS0 a + maj32 a b c)
        [w32 (t1 + t2), a, b, c, w32 (d + t1), e, f, g]
      | other => other)
    h
  List.zipWith (fun x y => w32 (x + y)) h final

/-- SHA-256 digest of a byte sequence, as eight 32-bit words. -/
def sha256Words (msg : List Nat) : List Nat :=
  (chunks64 (sha256Pad msg)).foldl sha256Compress sha256H0

/-- Lowercase hex digit. -/
def hexDigit (n : Nat) : Char :=
  if n < 10 then Char.ofNat (48 + n) else Char.ofNat (87 + n)

/-- Eight lowercase hex digits of a 32-bit word. -/
def word32Hex (n : Nat) : List Char :=
  [hexDigit ((n >>> 28) &&& 15), hexDigit ((n >>> 24) &&& 15),
   hexDigit ((n >>> 20) &&& 15), hexDigit ((n >>> 16) &&& 15),
   hexDigit ((n >>> 12) &&& 15), hexDigit ((n >>> 8) &&& 15),
   hexDigit ((n >>> 4) &&& 15), hexDigit (n &&& 15)]

/-- Model of `hashlib.sha256(bytes).hexdigest()`: 64 lowercase hex characters. -/
def sha256hex (msg : List Nat) : String :=
  String.mk ((sha256Words msg).map word32Hex).flatten

/-- The pre-hash string of Card.calc_uuid_stem (its local `rep`): the word
normalized with the `.` sentinel forced on, then `|` and the source when
the source is non-empty. -/
def uuidRep (c : Card) : String :=
  let rep := ustrToString (remove_nekudot c.word (some (c.flags ++ ".")))
  if c.source.length > 0 then rep ++ "|" ++ c.source else rep

/-- Card.calc_uuid_stem: SHA-256 hex digest of the pre-hash string, or the
fresh random identifier (`uuid.uuid1().hex` of this call) when the
pre-hash string is empty. -/
def calc_uuid_stem (c : Card) (fresh : String) : String :=
  if (uuidRep c).length > 0 then sha256hex (utf8Bytes (uuidRep c)) else fresh

/-- Card.save: the lines written to the output file, in order (WT, WP,
PT).  `fresh` is the random identifier `uuid.uuid1().hex` would produce if
the fallback of `calc_uuid_stem` is reached during this call. -/
def save (c : Card) (fresh : String) : List String :=
  let dressed_word := dress_word c.word c.flags
  let dressed_translation := dress_translation c.translation c.flags
  let dressed_pronunciation := dress_pronunciation c.pronunciation c.flags
  let ask_pronunciation := "<em style=\"font-size:14pt\">Pronounce:</em>"
  let ask_translation := "<em style=\"font-size:14pt\">Translate:</em>"
  let ask_spelling := "<em style=\"font-size:14pt\">Spell:</em>"
  let non_empty_count :=
    ([dressed_word, dressed_translation, dressed_pronunciation].filter
      fun w => decide (w.length > 0)).length
  if non_empty_count = 0 then []
  else
    let uuid_stem := calc_uuid_stem c fresh
    (if dressed_word.length > 0 ∧ dressed_translation.length > 0 then
       [c.uuidPre ++ "WT" ++ uuid_stem ++ "\t" ++
        ask_translation ++ "<br /><br />" ++ dressed_word ++ "\t" ++
        ask_translation ++ "<br /><br />" ++ dressed_translation ++ "\t" ++
        c.tags ++ "\n"]
     else []) ++
    (if dressed_word.length > 0 ∧ dressed_pronunciation.length > 0 then
       [c.uuidPre ++ "WP" ++ uuid_stem ++ "\t" ++
        ask_pronunciation ++ "<br /><br />" ++ dressed_word ++ "\t" ++
        ask_spelling ++ "<br /><br />" ++ dressed_pronunciation ++ "\t" ++
        c.tags ++ "\n"]
     else []) ++
    (if dressed_pronunciation.length > 0 ∧ dressed_translation.length > 0 then
       [c.uuidPre ++ "PT" ++ uuid_stem ++ "\t" ++
        ask_translation ++ "<br /><br />" ++ dressed_pronunciation ++ "\t" ++
        ask_pronunciation ++ "<br /><br />" ++ dressed_translation ++ "\t" ++
        c.tags ++ "\n"]
     else [])

/-! ### Helper lemmas about strings and membership -/

theorem hasChar_iff {s : String} {ch : Char} : hasChar s ch = true ↔ ch ∈ s.toList := by
  simp [hasChar]

theorem str_length_lt_one_iff {s : String} : s.length < 1 ↔ s = "" := by
  cases s with
  | mk data =>
    cases data <;> simp [String.length, String.ext_iff]

theorem str_length_pos_iff {s : String} : 0 < s.length ↔ s ≠ "" := by
  cases s with
  | mk data =>
    cases data <;> simp [String.length, String.ext_iff]

/-! ### C2 / C10: the flag filter -/

/-- The §4.5 notion (spec) of a single flag predicate being satisfied by a
card: the predicate, normalized by `utils.cleanup`, is non-empty (an empty
or whitespace-only predicate is never satisfied, see C10) and every one of
its characters occurs in the card's flags string. -/
def specPredSatisfied (c : Card) (p : String) : Prop :=
  cleanup p ≠ "" ∧ ∀ ch ∈ (cleanup p).toList, ch ∈ c.flags.toList

theorem has_all_flags_iff (c : Card) (p : String) :
    has_all_flags c p = true ↔ specPredSatisfied c p := by
  unfold has_all_flags specPredSatisfied
  by_cases h : (cleanup p).length < 1
  · simp [h, str_length_lt_one_iff.mp h]
  · have : cleanup p ≠ "" := by
      intro he
      exact h (by simp [he, str_length_lt_one_iff])
    simp [h, this, List.all_eq_true, hasChar_iff]

theorem has_flags_iff (c : Card) (l : List String) :
    has_flags c l = true ↔ ∃ p ∈ l, specPredSatisfied c p := by
  unfold has_flags
  by_cases h : l = []
  · simp [h]
  · have : 0 < l.length := List.length_pos.mpr h
    simp [Nat.not_lt.mpr this, List.any_eq_true, has_all_flags_iff]

/-- Claim C2: `should_be_saved` implements the §4.5 truth table.  With both
predicate lists empty it keeps the card; with only includes it keeps the
card iff some include predicate is satisfied; with only excludes it keeps
the card iff no exclude predicate is satisfied; with both, a satisfied
include wins, otherwise the card is kept iff no exclude is satisfied.  In
particular with include `["m"]` and exclude `["f"]`, a card with flags
`"f"` is dropped and a card with flags `"mf"` is kept. -/
theorem C2_filter_truth_table :
    (∀ (c : Card) (incl excl : List String),
      should_be_saved c incl excl = true ↔
        ((incl = [] ∧ excl = []) ∨
         (incl ≠ [] ∧ excl = [] ∧ ∃ p ∈ incl, specPredSatisfied c p) ∨
         (incl = [] ∧ excl ≠ [] ∧ ¬ ∃ p ∈ excl, specPredSatisfied c p) ∨
         (incl ≠ [] ∧ excl ≠ [] ∧
           ((∃ p ∈ incl, specPredSatisfied c p) ∨ ¬ ∃ p ∈ excl, specPredSatisfied c p)))) ∧
    should_be_saved (mkCard [] "" "" "f" "" "" "PGMS") ["m"] ["f"] = false ∧
    should_be_saved (mkCard [] "" "" "mf" "" "" "PGMS") ["m"] ["f"] = true := by
  refine ⟨?_, by decide, by decide⟩
  intro c incl excl
  have hi1 := has_flags_iff c incl
  have he1 := has_flags_iff c excl
  by_cases hi : incl = [] <;> by_cases he : excl = []
  · simp [should_be_saved, hi, he]
  · have : 0 < excl.length := List.length_pos.mpr he
    simp [should_be_saved, hi, he, this, ← he1]
  · have : 0 < incl.length := List.length_pos.mpr hi
    simp [should_be_saved, hi, he, this, ← hi1]
  · have h1 : 0 < incl.length := List.length_pos.mpr hi
    have h2 : 0 < excl.length := List.length_pos.mpr he
    by_cases hf : has_flags c incl = true
    · simp [should_be_saved, hi, he, h1, h2, hf, ← hi1, ← he1]
    · simp [should_be_saved, hi, he, h1, h2, hf, ← hi1, ← he1]

/-- Claim C10: an include predicate that cleans to the empty string is
never satisfied — `has_all_flags` returns `False` for it rather than
treating its empty character set as vacuously present — so a non-empty
include list all of whose predicates clean to empty, together with an
empty exclude list, drops every card. -/
theorem C10_empty_include_pred :
    ∀ (c : Card),
      (∀ p, cleanup p = "" → has_all_flags c p = false) ∧
      (∀ incl, incl ≠ [] → (∀ p ∈ incl, cleanup p = "") →
        should_be_saved c incl [] = false) := by
  intro c
  have hall : ∀ p, cleanup p = "" → has_all_flags c p = false := by
    intro p hp
    unfold has_all_flags
    simp [hp, String.length]
  refine ⟨hall, ?_⟩
  intro incl hne hemp
  have h1 : 0 < incl.length := List.length_pos.mpr hne
  have hfl : has_flags c incl = false := by
    cases hv : has_flags c incl with
    | false => rfl
    | true =>
      obtain ⟨p, hp, hs⟩ := (has_flags_iff c incl).mp hv
      exact absurd (hemp p hp) hs.1
  simp [should_be_saved, hne, h1, hfl]

/-- Witness for C10: a whitespace-only predicate is unsatisfied, and the
include list `[""]` drops a card whose flags are `"mf"`. -/
theorem C10_empty_include_pred_witness :
    has_all_flags (mkCard [] "" "" "mf" "" "" "PGMS") " " = false ∧
    should_be_saved (mkCard [] "" "" "mf" "" "" "PGMS") [""] [] = false :=
  ⟨(C10_empty_include_pred (mkCard [] "" "" "mf" "" "" "PGMS")).1 " " (by decide),
   (C10_empty_include_pred (mkCard [] "" "" "mf" "" "" "PGMS")).2 [""]
     (by decide) (by decide)⟩

/-! ### C1: row emission -/

/-- Claim C1, amended: `save` writes at most 3 rows; it writes 0 rows iff
no two of the three rendered fragments are simultaneously non-empty (in
particular whenever all three are empty); and the number of rows equals
the number of field pairs whose two sides both render non-empty. -/
theorem C1_row_emission :
    ∀ (c : Card) (fresh : String),
      (save c fresh).length ≤ 3 ∧
      ((save c fresh) = [] ↔
        ¬ ((dress_word c.word c.flags ≠ "" ∧ dress_translation c.translation c.flags ≠ "") ∨
           (dress_word c.word c.flags ≠ "" ∧ dress_pronunciation c.pronunciation c.flags ≠ "") ∨
           (dress_pronunciation c.pronunciation c.flags ≠ "" ∧
             dress_translation c.translation c.flags ≠ ""))) ∧
      (save c fresh).length =
        (if dress_word c.word c.flags ≠ "" ∧ dress_translation c.translation c.flags ≠ ""
         then 1 else 0) +
        (if dress_word c.word c.flags ≠ "" ∧ dress_pronunciation c.pronunciation c.flags ≠ ""
         then 1 else 0) +
        (if dress_pronunciation c.pronunciation c.flags ≠ "" ∧
            dress_translation c.translation c.flags ≠ ""
         then 1 else 0) := by
  intro c fresh
  simp only [ne_eq, ← str_length_pos_iff]
  rcases Nat.eq_zero_or_pos (dress_word c.word c.flags).length with hw | hw <;>
    rcases Nat.eq_zero_or_pos (dress_translation c.translation c.flags).length with ht | ht <;>
    rcases Nat.eq_zero_or_pos (dress_pronunciation c.pronunciation c.flags).length with hp | hp <;>
    simp [save, hw, ht, hp]

/-- A card whose word renders non-empty while translation and
pronunciation render empty. -/
def c1CexCard : Card := mkCard [chL 'a'] "" "" "" "" "" "PGMS"

/-- Counterexample to C1 as frozen: `save` writes 0 rows for `c1CexCard`
although its three rendered fragments are not all empty (the dressed word
is non-empty), refuting the claimed equivalence. -/
theorem C1_row_emission_cex :
    save c1CexCard "x" = [] ∧ dress_word c1CexCard.word c1CexCard.flags ≠ "" := by
  decide

/-! ### C3 / C6: the identity stem -/

theorem hasChar_append_dot (fl : String) : hasChar (fl ++ ".") '.' = true := by
  rw [hasChar_iff]
  simp [String.toList]

/-- Identity normalization forces the sentinel on: `remove_nekudot` with
`flags + "."` always returns the letters-and-marks form, whatever the
card's own flags are. -/
theorem remove_nekudot_forced_dot (w : UStr) (fl : String) :
    remove_nekudot w (some (fl ++ ".")) = lettersAndMarks w := by
  unfold remove_nekudot
  simp [hasChar_append_dot]

theorem uuidRep_eq_of (c1 c2 : Card) (hword : c1.word = c2.word)
    (hsrc : c1.source = c2.source) : uuidRep c1 = uuidRep c2 := by
  unfold uuidRep
  rw [remove_nekudot_forced_dot, remove_nekudot_forced_dot, hword, hsrc]

/-- Claim C3, amended: `calc_uuid_stem` is deterministic — two calls yield
the identical hex digest — provided the pre-hash string is non-empty; when
the word normalizes to empty and the source is empty the result is the
per-call random identifier, which differs between calls. -/
theorem C3_stem_deterministic :
    ∀ (c : Card) (f1 f2 : String),
      uuidRep c ≠ "" → calc_uuid_stem c f1 = calc_uuid_stem c f2 := by
  intro c f1 f2 h
  unfold calc_uuid_stem
  rw [if_pos (str_length_pos_iff.mpr h), if_pos (str_length_pos_iff.mpr h)]

/-- Witness for C3: a card whose word is the letter `a` has a non-empty
pre-hash string, and two calls of `calc_uuid_stem` on it agree. -/
theorem C3_stem_deterministic_witness :
    uuidRep (mkCard [chL 'a'] "" "" "" "" "" "PGMS") ≠ "" ∧
    calc_uuid_stem (mkCard [chL 'a'] "" "" "" "" "" "PGMS") "x" =
      calc_uuid_stem (mkCard [chL 'a'] "" "" "" "" "" "PGMS") "y" :=
  ⟨by decide, C3_stem_deterministic (mkCard [chL 'a'] "" "" "" "" "" "PGMS") "x" "y" (by decide)⟩

/-- A card whose word is the single digit `1` (category Number, so it
normalizes to the empty word) and whose source is empty. -/
def c3CexCard : Card := mkCard [chN '1'] "" "" "" "" "" "PGMS"

/-- Counterexample to C3 as frozen: for word `"1"` and source `""` the
pre-hash string is empty, so `calc_uuid_stem` falls back to the per-call
random identifier and two computations differ. -/
theorem C3_stem_deterministic_cex :
    calc_uuid_stem c3CexCard "aaaa" ≠ calc_uuid_stem c3CexCard "bbbb" := by
  decide

/-- Claim C6, amended: the identity stem depends only on the card's word
and source — flags (the `.` sentinel included), translation, pronunciation
and tags are irrelevant because the identity normalization forces the
sentinel on — provided the pre-hash string is non-empty. -/
theorem C6_stem_flag_independent :
    ∀ (c1 c2 : Card) (f1 f2 : String),
      c1.word = c2.word → c1.source = c2.source → uuidRep c1 ≠ "" →
      calc_uuid_stem c1 f1 = calc_uuid_stem c2 f2 := by
  intro c1 c2 f1 f2 hw hs hne
  have hr : uuidRep c1 = uuidRep c2 := uuidRep_eq_of c1 c2 hw hs
  unfold calc_uuid_stem
  rw [← hr, if_pos (str_length_pos_iff.mpr hne), if_pos (str_length_pos_iff.mpr hne)]

/-- Witness for C6: two cards sharing word `a` and an empty source but
differing in flags (sentinel present vs absent), translation,
pronunciation and tags receive the same stem. -/
theorem C6_stem_flag_independent_witness :
    (mkCard [chL 'a'] "" "" "" "" "" "PGMS").word =
      (mkCard [chL 'a'] "t" "p" ".mfV" "tg" "" "PGMS").word ∧
    (mkCard [chL 'a'] "" "" "" "" "" "PGMS").source =
      (mkCard [chL 'a'] "t" "p" ".mfV" "tg" "" "PGMS").source ∧
    (mkCard [chL 'a'] "" "" "" "" "" "PGMS").flags ≠
      (mkCard [chL 'a'] "t" "p" ".mfV" "tg" "" "PGMS").flags ∧
    calc_uuid_stem (mkCard [chL 'a'] "" "" "" "" "" "PGMS") "x" =
      calc_uuid_stem (mkCard [chL 'a'] "t" "p" ".mfV" "tg" "" "PGMS") "y" :=
  ⟨by decide, by decide, by decide,
   C6_stem_flag_independent (mkCard [chL 'a'] "" "" "" "" "" "PGMS")
     (mkCard [chL 'a'] "t" "p" ".mfV" "tg" "" "PGMS") "x" "y"
     (by decide) (by decide) (by decide)⟩

/-- Like `c3CexCard`, with flags lacking the sentinel. -/
def c6CexA : Card := mkCard [chN '1'] "" "" "" "" "" "PGMS"

/-- Like `c3CexCard`, with flags consisting of the sentinel. -/
def c6CexB : Card := mkCard [chN '1'] "" "" "." "" "" "PGMS"

/-- Counterexample to C6 as frozen: two cards with equal word (`"1"`) and
equal (empty) source both hit the random-identifier fallback, so their
stems differ between calls. -/
theorem C6_stem_flag_independent_cex :
    c6CexA.word = c6CexB.word ∧ c6CexA.source = c6CexB.source ∧
    calc_uuid_stem c6CexA "aaaa" ≠ calc_uuid_stem c6CexB "bbbb" := by
  decide

/-! ### C4 / C8: diacritic stripping -/

theorem hasChar_false_iff {s : String} {ch : Char} :
    hasChar s ch = false ↔ ch ∉ s.toList := by
  rw [← Bool.not_eq_true, hasChar_iff]

/-- Claim C4: with the `.` sentinel absent, `remove_nekudot` returns the
letters-only form, except that when flags contain `2`, `V` and `S`
simultaneously and the letters-and-marks form ends in a Mark, that single
trailing mark is appended; with the sentinel present the
letters-and-marks form is returned (the exception never applies). -/
theorem C4_retention_exception :
    ∀ (w : UStr) (fl : String),
      ('.' ∉ fl.toList → '2' ∈ fl.toList → 'V' ∈ fl.toList → 'S' ∈ fl.toList →
        ∀ u, (lettersAndMarks w).getLast? = some u → u.cat = UCat.M →
          remove_nekudot w (some fl) = lettersOnly w ++ [u]) ∧
      ('.' ∉ fl.toList → ¬ ('2' ∈ fl.toList ∧ 'V' ∈ fl.toList ∧ 'S' ∈ fl.toList) →
          remove_nekudot w (some fl) = lettersOnly w) ∧
      ('.' ∉ fl.toList → (∀ u, (lettersAndMarks w).getLast? = some u → u.cat ≠ UCat.M) →
          remove_nekudot w (some fl) = lettersOnly w) ∧
      ('.' ∈ fl.toList → remove_nekudot w (some fl) = lettersAndMarks w) := by
  intro w fl
  refine ⟨?_, ?_, ?_, ?_⟩
  · intro hnd h2 hV hS u hu hcat
    have e1 : hasChar fl '.' = false := hasChar_false_iff.mpr hnd
    have e2 : hasChar fl '2' = true := hasChar_iff.mpr h2
    have eV : hasChar fl 'V' = true := hasChar_iff.mpr hV
    have eS : hasChar fl 'S' = true := hasChar_iff.mpr hS
    unfold remove_nekudot
    simp [e1, e2, eV, eS, hu, hcat, lettersOnly]
  · intro hnd hno
    have e1 : hasChar fl '.' = false := hasChar_false_iff.mpr hnd
    have econd : (hasChar fl '2' && hasChar fl 'V' && hasChar fl 'S') = false := by
      rw [← Bool.not_eq_true]
      simp only [Bool.and_eq_true, hasChar_iff]
      tauto
    unfold remove_nekudot
    simp [e1, econd, lettersOnly]
  · intro hnd hlast
    have e1 : hasChar fl '.' = false := hasChar_false_iff.mpr hnd
    unfold remove_nekudot
    by_cases hc : (hasChar fl '2' && hasChar fl 'V' && hasChar fl 'S') = true
    · cases hu : (lettersAndMarks w).getLast? with
      | none =>
        have hemp : lettersAndMarks w = [] := by
          simpa using hu
        simp [e1, hc, hu, hemp, lettersOnly]
      | some u =>
        have : u.cat ≠ UCat.M := hlast u hu
        simp [e1, hc, hu, this, lettersOnly]
    · have hcf : (hasChar fl '2' && hasChar fl 'V' && hasChar fl 'S') = false := by
        simpa using hc
      simp [e1, hcf, lettersOnly]
  · intro hd
    have e1 : hasChar fl '.' = true := hasChar_iff.mpr hd
    unfold remove_nekudot
    simp [e1]

/-- Witness for C4: for the word letter-`a`-plus-combining-mark, flags
`2VS` retain the trailing mark, flags `2V` do not, and the sentinel keeps
the full letters-and-marks form. -/
theorem C4_retention_exception_witness :
    ('.' ∉ "2VS".toList) ∧
    remove_nekudot [chL 'a', chM '́'] (some "2VS") =
      lettersOnly [chL 'a', chM '́'] ++ [chM '́'] ∧
    remove_nekudot [chL 'a', chM '́'] (some "2V") =
      lettersOnly [chL 'a', chM '́'] ∧
    remove_nekudot [chL 'a', chM '́'] (some ".") =
      lettersAndMarks [chL 'a', chM '́'] :=
  ⟨by decide,
   (C4_retention_exception [chL 'a', chM '́'] "2VS").1 (by decide) (by decide)
     (by decide) (by decide) (chM '́') (by decide) (by decide),
   (C4_retention_exception [chL 'a', chM '́'] "2V").2.1 (by decide) (by decide),
   (C4_retention_exception [chL 'a', chM '́'] ".").2.2.2 (by decide)⟩

/-- The flags string with every `.` sentinel removed. -/
def dropDot (fl : String) : String :=
  String.mk (fl.toList.filter fun ch => decide (ch ≠ '.'))

theorem hasChar_dropDot_dot (fl : String) : hasChar (dropDot fl) '.' = false := by
  simp [dropDot, hasChar, String.toList]

theorem mem_dropDot_iff {fl : String} {ch : Char} :
    ch ∈ (dropDot fl).toList ↔ ch ∈ fl.toList ∧ ch ≠ '.' := by
  simp [dropDot, String.toList]

theorem hasChar_dropDot_ne (fl : String) {ch : Char} (h : ch ≠ '.') :
    hasChar (dropDot fl) ch = hasChar fl ch := by
  rw [Bool.eq_iff_iff, hasChar_iff, hasChar_iff, mem_dropDot_iff]
  exact and_iff_left h

/-- Claim C8: with the `.` sentinel present, `remove_nekudot` yields a
result at least as long as with the sentinel removed from the same flags,
and the two results carry the same base letters (category `L`
subsequence). -/
theorem C8_sentinel_superset :
    ∀ (w : UStr) (fl : String), '.' ∈ fl.toList →
      (remove_nekudot w (some (dropDot fl))).length ≤
        (remove_nekudot w (some fl)).length ∧
      (remove_nekudot w (some (dropDot fl))).filter (fun u => u.cat = UCat.L) =
        (remove_nekudot w (some fl)).filter (fun u => u.cat = UCat.L) := by
  intro w fl hdot
  have e1 : hasChar fl '.' = true := hasChar_iff.mpr hdot
  have hR : remove_nekudot w (some fl) = lettersAndMarks w := by
    unfold remove_nekudot
    simp [e1]
  rw [hR]
  have e2 : hasChar (dropDot fl) '.' = false := hasChar_dropDot_dot fl
  have hlen : ((lettersAndMarks w).filter (fun u => decide (u.cat = UCat.L))).length ≤
      (lettersAndMarks w).length := List.length_filter_le _ _
  have hfilt : ((lettersAndMarks w).filter (fun u => decide (u.cat = UCat.L))).filter
      (fun u => decide (u.cat = UCat.L)) =
      (lettersAndMarks w).filter (fun u => decide (u.cat = UCat.L)) := by
    simp [List.filter_filter]
  unfold remove_nekudot
  simp only [e2, Bool.false_eq_true, if_false]
  by_cases hc : (hasChar (dropDot fl) '2' && hasChar (dropDot fl) 'V' &&
      hasChar (dropDot fl) 'S') = true
  · simp only [hc, if_true]
    cases hu : (lettersAndMarks w).getLast? with
    | none => simp
    | some u =>
      by_cases hm : u.cat = UCat.M
      · simp only [hm, if_pos]
        obtain ⟨l', hl⟩ := List.getLast?_eq_some_iff.mp hu
        have hum : (decide (u.cat = UCat.L)) = false := by simp [hm]
        constructor
        · rw [hl]
          have h1 : (l'.filter (fun u => decide (u.cat = UCat.L))).length ≤ l'.length :=
            List.length_filter_le _ _
          simp [List.filter_append, hum, List.length_append]
          omega
        · simp [List.filter_append, hum, hfilt]
      · simp [hm, hlen, hfilt]
  · have hcf : (hasChar (dropDot fl) '2' && hasChar (dropDot fl) 'V' &&
        hasChar (dropDot fl) 'S') = false := by simpa using hc
    simp [hcf, hlen, hfilt]

/-- Witness for C8: the word letter-`a`-plus-combining-mark under flags
`"."` versus the same flags with the sentinel removed. -/
theorem C8_sentinel_superset_witness :
    ('.' ∈ ".".toList) ∧
    (remove_nekudot [chL 'a', chM '́'] (some (dropDot "."))).length ≤
      (remove_nekudot [chL 'a', chM '́'] (some ".")).length :=
  ⟨by decide, (C8_sentinel_superset [chL 'a', chM '́'] "." (by decide)).1⟩

/-! ### C5: unknown flag characters -/

/-- The closed flag alphabet (Glossary): gender `m f`, number `s p`,
person `1 2 3`, tense `I P S F`, state `a c`, part of speech `V N A B`,
and the diacritic-retention sentinel `.`. -/
def knownFlags : List Char :=
  ['m', 'f', 's', 'p', '1', '2', '3', 'I', 'P', 'S', 'F', 'a', 'c', 'V', 'N', 'A', 'B', '.']

theorem mem_append_char_iff {s : String} {x ch : Char} :
    ch ∈ (s ++ x.toString).toList ↔ ch ∈ s.toList ∨ ch = x := by
  simp [String.toList, Char.toString]

theorem hasChar_append_char_ne {s : String} {x ch : Char} (h : ch ≠ x) :
    hasChar (s ++ x.toString) ch = hasChar s ch := by
  rw [Bool.eq_iff_iff, hasChar_iff, hasChar_iff, mem_append_char_iff]
  exact or_iff_left h

theorem list_all_congr {α : Type} {l : List α} {p q : α → Bool}
    (h : ∀ a ∈ l, p a = q a) : l.all p = l.all q := by
  induction l with
  | nil => rfl
  | cons a t ih =>
    simp only [List.all_cons, h a (by simp)]
    rw [ih fun b hb => h b (by simp [hb])]

theorem list_any_congr {α : Type} {l : List α} {p q : α → Bool}
    (h : ∀ a ∈ l, p a = q a) : l.any p = l.any q := by
  induction l with
  | nil => rfl
  | cons a t ih =>
    simp only [List.any_cons, h a (by simp)]
    rw [ih fun b hb => h b (by simp [hb])]

theorem has_all_flags_append_char {c : Card} {x : Char} {p : String}
    (hp : x ∉ (cleanup p).toList) :
    has_all_flags {c with flags := c.flags ++ x.toString} p = has_all_flags c p := by
  unfold has_all_flags
  by_cases hl : (cleanup p).length < 1
  · simp [hl]
  · simp only [hl, if_false]
    exact list_all_congr fun ch hch =>
      hasChar_append_char_ne fun he => hp (he ▸ hch)

theorem has_flags_append_char {c : Card} {x : Char} {l : List String}
    (hl : ∀ p ∈ l, x ∉ (cleanup p).toList) :
    has_flags {c with flags := c.flags ++ x.toString} l = has_flags c l := by
  unfold has_flags
  by_cases hn : l.length < 1
  · simp [hn]
  · simp only [hn, if_false]
    exact list_any_congr fun p hp => has_all_flags_append_char (hl p hp)

/-- Claim C5, amended: appending a character outside the closed flag
alphabet to a card's flags changes neither the `annotate_flags` output nor
the `remove_nekudot` output, nor the result of `should_be_saved` for any
predicate lists whose cleaned predicates do not mention the appended
character; and the character persists in the flags string (it is not
rejected).  (The restriction on the predicate lists is forced: a predicate
that itself contains the unknown character starts matching once the
character is appended — see the counterexample.) -/
theorem C5_unknown_flags_inert :
    ∀ (c : Card) (x : Char), x ∉ knownFlags →
      annotate_flags (c.flags ++ x.toString) = annotate_flags c.flags ∧
      (∀ w, remove_nekudot w (some (c.flags ++ x.toString)) =
        remove_nekudot w (some c.flags)) ∧
      (∀ incl excl,
        (∀ p ∈ incl, x ∉ (cleanup p).toList) →
        (∀ p ∈ excl, x ∉ (cleanup p).toList) →
        should_be_saved {c with flags := c.flags ++ x.toString} incl excl =
          should_be_saved c incl excl) ∧
      x ∈ (c.flags ++ x.toString).toList := by
  intro c x hx
  have hne : ∀ ch ∈ knownFlags, ch ≠ x := fun ch hch he => hx (he ▸ hch)
  have hrw : ∀ ch ∈ knownFlags, hasChar (c.flags ++ x.toString) ch = hasChar c.flags ch :=
    fun ch hch => hasChar_append_char_ne (hne ch hch)
  refine ⟨?_, ?_, ?_, ?_⟩
  · unfold annotate_flags
    rw [hrw 'm' (by decide), hrw 'f' (by decide), hrw '1' (by decide),
        hrw '2' (by decide), hrw '3' (by decide), hrw 's' (by decide),
        hrw 'p' (by decide), hrw 'I' (by decide), hrw 'P' (by decide),
        hrw 'S' (by decide), hrw 'F' (by decide), hrw 'a' (by decide),
        hrw 'c' (by decide)]
  · intro w
    simp only [remove_nekudot]
    rw [hrw '.' (by decide), hrw '2' (by decide), hrw 'V' (by decide),
        hrw 'S' (by decide)]
  · intro incl excl hi he
    unfold should_be_saved
    rw [has_flags_append_char hi, has_flags_append_char he]
  · exact mem_append_char_iff.mpr (Or.inr rfl)

/-- An empty card (all fields empty). -/
def c5CexCard : Card := mkCard [] "" "" "" "" "" "PGMS"

/-- Counterexample to C5 as frozen: `z` lies outside the closed alphabet,
yet appending it to a card's flags changes `should_be_saved` for the
include list `["z"]` — the claim's unrestricted quantification over
predicate lists fails. -/
theorem C5_unknown_flags_inert_cex :
    'z' ∉ knownFlags ∧
    should_be_saved {c5CexCard with flags := c5CexCard.flags ++ 'z'.toString} ["z"] [] = true ∧
    should_be_saved c5CexCard ["z"] [] = false := by
  decide

/-- Witness for C5: appending `z` to the flags `"mf"` leaves grammar
annotation, normalization and filtering (for a predicate not mentioning
`z`) unchanged, and `z` persists in the flags. -/
theorem C5_unknown_flags_inert_witness :
    'z' ∉ knownFlags ∧
    annotate_flags ((mkCard [] "" "" "m" "" "" "PGMS").flags ++ 'z'.toString) =
      annotate_flags (mkCard [] "" "" "m" "" "" "PGMS").flags ∧
    remove_nekudot [chL 'a', chM '́']
        (some ((mkCard [] "" "" "m" "" "" "PGMS").flags ++ 'z'.toString)) =
      remove_nekudot [chL 'a', chM '́'] (some (mkCard [] "" "" "m" "" "" "PGMS").flags) ∧
    should_be_saved
        {mkCard [] "" "" "m" "" "" "PGMS" with
          flags := (mkCard [] "" "" "m" "" "" "PGMS").flags ++ 'z'.toString} ["m"] [] =
      should_be_saved (mkCard [] "" "" "m" "" "" "PGMS") ["m"] [] ∧
    'z' ∈ ((mkCard [] "" "" "m" "" "" "PGMS").flags ++ 'z'.toString).toList :=
  ⟨by decide,
   (C5_unknown_flags_inert (mkCard [] "" "" "m" "" "" "PGMS") 'z' (by decide)).1,
   (C5_unknown_flags_inert (mkCard [] "" "" "m" "" "" "PGMS") 'z' (by decide)).2.1
     [chL 'a', chM '́'],
   (C5_unknown_flags_inert (mkCard [] "" "" "m" "" "" "PGMS") 'z' (by decide)).2.2.1
     ["m"] [] (by decide) (by decide),
   (C5_unknown_flags_inert (mkCard [] "" "" "m" "" "" "PGMS") 'z' (by decide)).2.2.2⟩

/-! ### C7: the flag grammar -/

/-- Spec §4.1 gender phrase: suppressed when both or neither gender flag
is present. -/
def genderPhrase (flags : String) : String :=
  if (hasChar flags 'm' && hasChar flags 'f') || (!hasChar flags 'm' && !hasChar flags 'f')
  then "" else if hasChar flags 'm' then "masculine" else "feminine"

/-- Spec §4.1 person phrase: suppressed when none or all three person
flags are present, pairwise-combined phrasing when exactly two are
present, simple phrasing for exactly one. -/
def personPhrase (flags : String) : String :=
  let n := (['1', '2', '3'].filter fun ch => hasChar flags ch).length
  if n = 0 || n = 3 then ""
  else if n = 2 then
    if !hasChar flags '3' then "1st/2nd person"
    else if !hasChar flags '2' then "1st/3rd person"
    else "2nd/3rd person"
  else
    if hasChar flags '1' then "1st person"
    else if hasChar flags '2' then "2nd person"
    else "3rd person"

/-- Spec §4.1 number phrase: suppressed when both or neither number flag
is present. -/
def numberPhrase (flags : String) : String :=
  if (hasChar flags 's' && hasChar flags 'p') || (!hasChar flags 's' && !hasChar flags 'p')
  then "" else if hasChar flags 's' then "single" else "plural"

/-- Spec §4.1 tense phrase: first match wins in the priority order
infinitive > present > past > future; at most one shown. -/
def tensePhrase (flags : String) : String :=
  match ['I', 'P', 'S', 'F'].find? (fun ch => hasChar flags ch) with
  | some ch =>
    if ch = 'I' then "infinitive" else if ch = 'P' then "present"
    else if ch = 'S' then "past" else "future"
  | none => ""

/-- Spec §4.1 state phrase: suppressed when both or neither state flag is
present. -/
def statePhrase (flags : String) : String :=
  if (hasChar flags 'a' && hasChar flags 'c') || (!hasChar flags 'a' && !hasChar flags 'c')
  then "" else if hasChar flags 'a' then "absolute" else "construct"

/-- The flag characters the grammar reacts to. -/
def grammarChars : List Char :=
  ['m', 'f', '1', '2', '3', 's', 'p', 'I', 'P', 'S', 'F', 'a', 'c']

theorem genderBlock (flags : String) :
    (if hasChar flags 'm' && hasChar flags 'f' then ([] : List String)
     else if hasChar flags 'm' then ["masculine"]
     else if hasChar flags 'f' then ["feminine"]
     else []) =
    (if genderPhrase flags = "" then [] else [genderPhrase flags]) := by
  cases hm : hasChar flags 'm' <;> cases hf : hasChar flags 'f' <;>
    simp [genderPhrase, hm, hf]

theorem personBlock (flags : String) :
    (if hasChar flags '1' && hasChar flags '2' && hasChar flags '3' then ([] : List String)
     else if hasChar flags '1' && hasChar flags '2' then ["1st/2nd person"]
     else if hasChar flags '1' && hasChar flags '3' then ["1st/3rd person"]
     else if hasChar flags '2' && hasChar flags '3' then ["2nd/3rd person"]
     else if hasChar flags '1' then ["1st person"]
     else if hasChar flags '2' then ["2nd person"]
     else if hasChar flags '3' then ["3rd person"]
     else []) =
    (if personPhrase flags = "" then [] else [personPhrase flags]) := by
  cases h1 : hasChar flags '1' <;> cases h2 : hasChar flags '2' <;>
    cases h3 : hasChar flags '3' <;> simp [personPhrase, h1, h2, h3]

theorem numberBlock (flags : String) :
    (if hasChar flags 's' && hasChar flags 'p' then ([] : List String)
     else if hasChar flags 's' then ["single"]
     else if hasChar flags 'p' then ["plural"]
     else []) =
    (if numberPhrase flags = "" then [] else [numberPhrase flags]) := by
  cases hs : hasChar flags 's' <;> cases hp : hasChar flags 'p' <;>
    simp [numberPhrase, hs, hp]

theorem tenseBlock (flags : String) :
    (if hasChar flags 'I' then (["infinitive"] : List String)
     else if hasChar flags 'P' then ["present"]
     else if hasChar flags 'S' then ["past"]
     else if hasChar flags 'F' then ["future"]
     else []) =
    (if tensePhrase flags = "" then [] else [tensePhrase flags]) := by
  cases hI : hasChar flags 'I' <;> cases hP : hasChar flags 'P' <;>
    cases hS : hasChar flags 'S' <;> cases hF : hasChar flags 'F' <;>
    simp [tensePhrase, hI, hP, hS, hF]

theorem stateBlock (flags : String) :
    (if hasChar flags 'a' && hasChar flags 'c' then ([] : List String)
     else if hasChar flags 'a' then ["absolute"]
     else if hasChar flags 'c' then ["construct"]
     else []) =
    (if statePhrase flags = "" then [] else [statePhrase flags]) := by
  cases ha : hasChar flags 'a' <;> cases hc : hasChar flags 'c' <;>
    simp [statePhrase, ha, hc]

theorem join_if_pos (l : List String) :
    (if l.length > 0 then " ".intercalate l else "") = " ".intercalate l := by
  cases l with
  | nil => simp [String.intercalate]
  | cons a t => simp

theorem filter_five (g p n t s : String) :
    ([g, p, n, t, s].filter fun x => decide (x ≠ "")) =
    (if g = "" then [] else [g]) ++ (if p = "" then [] else [p]) ++
    (if n = "" then [] else [n]) ++ (if t = "" then [] else [t]) ++
    (if s = "" then [] else [s]) := by
  by_cases hg : g = "" <;> by_cases hp : p = "" <;> by_cases hn : n = "" <;>
    by_cases ht : t = "" <;> by_cases hs : s = "" <;> simp [hg, hp, hn, ht, hs]

/-- Claim C7: `annotate_flags` is the space-joined concatenation of the
non-empty category phrases in the fixed order gender, person, number,
tense, state (each with the spec's suppression, pairing and priority
rules); `annotate_flags "mf"` is empty, `annotate_flags "m1s"` is
`"masculine 1st person single"`, and empty or unknown input yields the
empty string. -/
theorem C7_annotate_flags :
    (∀ flags, annotate_flags flags =
      " ".intercalate ([genderPhrase flags, personPhrase flags, numberPhrase flags,
        tensePhrase flags, statePhrase flags].filter fun x => decide (x ≠ ""))) ∧
    annotate_flags "mf" = "" ∧
    annotate_flags "m1s" = "masculine 1st person single" ∧
    annotate_flags "" = "" ∧
    (∀ flags, (∀ ch ∈ flags.toList, ch ∉ grammarChars) → annotate_flags flags = "") := by
  refine ⟨?_, by decide, by decide, by decide, ?_⟩
  · intro flags
    unfold annotate_flags
    rw [filter_five]
    simp only [List.nil_append]
    rw [genderBlock, personBlock, numberBlock, tenseBlock, stateBlock, join_if_pos,
        List.append_assoc, List.append_assoc, List.append_assoc]
  · intro flags h
    have hf : ∀ ch ∈ grammarChars, hasChar flags ch = false := fun ch hch =>
      hasChar_false_iff.mpr fun hmem => h ch hmem hch
    unfold annotate_flags
    simp [hf 'm' (by decide), hf 'f' (by decide), hf '1' (by decide), hf '2' (by decide),
          hf '3' (by decide), hf 's' (by decide), hf 'p' (by decide), hf 'I' (by decide),
          hf 'P' (by decide), hf 'S' (by decide), hf 'F' (by decide), hf 'a' (by decide),
          hf 'c' (by decide)]

/-- Witness for C7: the unknown-input clause applied to the flags `"zx"`,
whose characters lie outside the grammar alphabet. -/
theorem C7_annotate_flags_witness : annotate_flags "zx" = "" :=
  C7_annotate_flags.2.2.2.2 "zx" (by decide)

/-! ### C9: pronunciation stress marker -/

theorem splitOnChar_ne_nil (sep : Char) (l : List Char) : splitOnChar sep l ≠ [] := by
  cases l with
  | nil => simp [splitOnChar]
  | cons x xs =>
    simp only [splitOnChar]
    cases hs : splitOnChar sep xs with
    | nil => simp
    | cons h t => by_cases hx : x = sep <;> simp [hx]

theorem splitOnChar_no_sep {sep : Char} {a : List Char} (h : sep ∉ a) :
    splitOnChar sep a = [a] := by
  induction a with
  | nil => rfl
  | cons x xs ih =>
    have hx : x ≠ sep := fun he => h (by simp [he])
    have hxs : sep ∉ xs := fun hm => h (by simp [hm])
    simp [splitOnChar, ih hxs, hx]

theorem splitOnChar_append_sep {sep : Char} {a r : List Char} (h : sep ∉ a) :
    splitOnChar sep (a ++ sep :: r) = a :: splitOnChar sep r := by
  induction a with
  | nil =>
    simp only [List.nil_append, splitOnChar]
    cases hs : splitOnChar sep r with
    | nil => exact absurd hs (splitOnChar_ne_nil sep r)
    | cons hh tt => simp
  | cons x xs ih =>
    have hx : x ≠ sep := fun he => h (by simp [he])
    have hxs : sep ∉ xs := fun hm => h (by simp [hm])
    simp only [List.cons_append, splitOnChar, List.append_eq]
    rw [ih hxs]
    simp [hx]

theorem splitOnChar_eq_one {sep : Char} {l a : List Char}
    (h : splitOnChar sep l = [a]) : l = a ∧ sep ∉ a := by
  induction l generalizing a with
  | nil =>
    simp only [splitOnChar, List.cons.injEq, and_true] at h
    subst h
    simp
  | cons x xs ih =>
    simp only [splitOnChar] at h
    cases hs : splitOnChar sep xs with
    | nil => exact absurd hs (splitOnChar_ne_nil sep xs)
    | cons hh tt =>
      rw [hs] at h
      by_cases hx : x = sep
      · simp [hx] at h
      · simp only [hx, if_false, List.cons.injEq] at h
        obtain ⟨h1, h2⟩ := h
        obtain ⟨hxeq, hnm⟩ := ih (h2 ▸ hs)
        subst hxeq
        refine ⟨h1, ?_⟩
        rw [← h1]
        intro hm
        rcases List.mem_cons.mp hm with he | hm2
        · exact hx he.symm
        · exact hnm hm2

theorem splitOnChar_eq_cons {sep : Char} {l a : List Char} {rest : List (List Char)}
    (h : splitOnChar sep l = a :: rest) (hr : rest ≠ []) :
    sep ∉ a ∧ ∃ r, l = a ++ sep :: r ∧ splitOnChar sep r = rest := by
  induction l generalizing a rest with
  | nil =>
    simp only [splitOnChar, List.cons.injEq] at h
    exact absurd h.2.symm hr
  | cons x xs ih =>
    simp only [splitOnChar] at h
    cases hs : splitOnChar sep xs with
    | nil => exact absurd hs (splitOnChar_ne_nil sep xs)
    | cons hh tt =>
      rw [hs] at h
      by_cases hx : x = sep
      · simp only [hx, if_true, List.cons.injEq] at h
        obtain ⟨ha, hrest⟩ := h
        subst ha
        refine ⟨by simp, xs, by simp [hx], ?_⟩
        rw [hs, hrest]
      · simp only [hx, if_false, List.cons.injEq] at h
        obtain ⟨ha, ht⟩ := h
        subst ht
        subst ha
        obtain ⟨hnm, r, hxs, hsr⟩ := ih hs hr
        refine ⟨?_, r, by simp [hxs], hsr⟩
        intro hm
        rcases List.mem_cons.mp hm with he | hm2
        · exact hx he.symm
        · exact hnm hm2

theorem matchStress_of_decomp {a b c : List Char}
    (ha : '*' ∉ a) (hb : '*' ∉ b) (hc : '*' ∉ c) (hbne : b ≠ []) :
    matchStress (a ++ '*' :: b ++ '*' :: c) = some (a, b, c) := by
  unfold matchStress
  rw [show a ++ '*' :: b ++ '*' :: c = a ++ '*' :: (b ++ '*' :: c) by simp,
      splitOnChar_append_sep ha, splitOnChar_append_sep hb, splitOnChar_no_sep hc]
  simp [hbne]

theorem decomp_of_matchStress {l a b c : List Char}
    (h : matchStress l = some (a, b, c)) :
    l = a ++ '*' :: b ++ '*' :: c ∧ '*' ∉ a ∧ '*' ∉ b ∧ '*' ∉ c ∧ b ≠ [] := by
  unfold matchStress at h
  split at h
  next a' b' c' heq =>
    by_cases hbe : b' = []
    · simp [hbe] at h
    · simp only [hbe, if_false, Option.some.injEq, Prod.mk.injEq] at h
      obtain ⟨h1, h2, h3⟩ := h
      subst h1; subst h2; subst h3
      obtain ⟨hna, r1, hl1, hs1⟩ := splitOnChar_eq_cons heq (by simp)
      obtain ⟨hnb, r2, hl2, hs2⟩ := splitOnChar_eq_cons hs1 (by simp)
      obtain ⟨hceq, hnc⟩ := splitOnChar_eq_one hs2
      subst hceq
      refine ⟨?_, hna, hnb, hnc, hbe⟩
      rw [hl1, hl2]
      simp
  next hne => exact absurd h (by simp)

/-- Claim C9: a non-empty cleaned pronunciation of the shape
`prefix*core*suffix` (exactly one pair of `*` delimiters, non-empty core)
renders as a medium-font span with the core nested in a bold red span and
the prefix and suffix outside it; every other non-empty input is wrapped
whole in a plain medium-font span. -/
theorem C9_pronunciation_stress :
    ∀ (p fl : String),
      (∀ a b c : List Char,
        (cleanup p).toList = a ++ '*' :: b ++ '*' :: c → b ≠ [] →
        '*' ∉ a → '*' ∉ b → '*' ∉ c →
        dress_pronunciation p fl =
          "<span style=\"font-size:18pt\">" ++ String.mk a ++
          "<span style=\"color:red;font-weight:bold;\">" ++ String.mk b ++
          "</span>" ++ String.mk c ++ "</span>") ∧
      (cleanup p ≠ "" →
        (¬ ∃ a b c : List Char,
          (cleanup p).toList = a ++ '*' :: b ++ '*' :: c ∧ b ≠ [] ∧
          '*' ∉ a ∧ '*' ∉ b ∧ '*' ∉ c) →
        dress_pronunciation p fl =
          "<span style=\"font-size:18pt\">" ++ cleanup p ++ "</span>") := by
  intro p fl
  constructor
  · intro a b c heq hbne ha hb hc
    have hne : cleanup p ≠ "" := by
      intro h0
      rw [h0] at heq
      simp at heq
    have hlen0 : ¬ ((cleanup p).length = 0) := fun h0 =>
      hne (str_length_lt_one_iff.mp (by omega))
    simp only [dress_pronunciation]
    rw [if_neg hlen0, heq, matchStress_of_decomp ha hb hc hbne]
  · intro hne hnex
    have hlen0 : ¬ ((cleanup p).length = 0) := fun h0 =>
      hne (str_length_lt_one_iff.mp (by omega))
    have hm : matchStress (cleanup p).toList = none := by
      cases hm0 : matchStress (cleanup p).toList with
      | none => rfl
      | some t =>
        rcases t with ⟨a, b, c⟩
        obtain ⟨hl, hna, hnb, hnc, hbne⟩ := decomp_of_matchStress hm0
        exact absurd ⟨a, b, c, hl, hbne, hna, hnb, hnc⟩ hnex
    simp only [dress_pronunciation]
    rw [if_neg hlen0, hm]

/-- Witness for C9: `"a*bc*d"` nests `bc` in the bold red span with `a`
and `d` outside it; `"abc"` is wrapped whole with no nested span. -/
theorem C9_pronunciation_stress_witness :
    dress_pronunciation "a*bc*d" "" =
      "<span style=\"font-size:18pt\">a<span style=\"color:red;font-weight:bold;\">bc</span>d</span>" ∧
    dress_pronunciation "abc" "" = "<span style=\"font-size:18pt\">abc</span>" := by
  constructor
  · have h := (C9_pronunciation_stress "a*bc*d" "").1 ['a'] ['b', 'c'] ['d']
      (by decide) (by decide) (by decide) (by decide) (by decide)
    rw [h]
    decide
  · have hno : ¬ ∃ a b c : List Char,
        (cleanup "abc").toList = a ++ '*' :: b ++ '*' :: c ∧ b ≠ [] ∧
        '*' ∉ a ∧ '*' ∉ b ∧ '*' ∉ c := by
      rintro ⟨a, b, c, heq, hbne, hna, hnb, hnc⟩
      have hmem : '*' ∈ (cleanup "abc").toList := by
        rw [heq]
        simp
      exact absurd hmem (by decide)
    have h := (C9_pronunciation_stress "abc" "").2 (by decide) hno
    rw [h]
    decide
